import Mathlib

/-!
Shallow embedding of `src/models/dalle_bart_encoder_torch.py` (min-dalle):
the forward pass of the DALL·E BART text encoder.

Modelling conventions:
* A tensor is a total function on `Fin`-indexed coordinate spaces over `ℝ`;
  the shape of a tensor is carried by its index types, e.g. a
  `[batch, seq, embed]` float tensor is `Fin B → Fin N → Fin E → ℝ`.
* The per-head channel split computed by the reshape/transpose choreography
  in `AttentionTorch.forward` is expressed by index arithmetic: with
  `nh` heads of head dimension `dh`, channel `hd * dh + c` holds coordinate
  `c` of head `hd`, and the embedding width is `nh * dh`.
* The `-inf` bias produced by `torch.where(mask, 0, -inf)` is modelled in
  `EReal`, with `⊥` standing for `-inf`; `expE` extends `Real.exp` by
  `expE ⊥ = 0`, matching IEEE `exp(-inf) = 0` as computed by
  `torch.softmax` on a row that contains `-inf` entries.
* Token ids are natural numbers; the token embedding table is total over
  ids (callers keep ids below the vocabulary size).  The position table is
  a finite table `Fin P → _`, so a forward call of sequence length `N`
  carries the bound `N ≤ P`, mirroring the runtime indexing requirement.
* `nn.Embedding`, `nn.Linear(bias=False)` and the `1×1 nn.Conv2d`
  projections are weight matrices applied per position.
-/

namespace MinDalle

/-- Channel index of in-head coordinate `c` of head `hd`: the reshape
`b(hc)1q -> bchq` in `AttentionTorch.forward` (lines 46-54) maps head `hd`
and coordinate `c` to channel `hd * dh + c`. -/
def chIdx {nh dh : ℕ} (hd : Fin nh) (c : Fin dh) : Fin (nh * dh) :=
  ⟨hd.1 * dh + c.1, by
    calc hd.1 * dh + c.1 < hd.1 * dh + dh := Nat.add_lt_add_left c.2 _
      _ = (hd.1 + 1) * dh := (Nat.succ_mul _ _).symm
      _ ≤ nh * dh := Nat.mul_le_mul_right dh hd.2⟩

/-- Head to which channel `ch` belongs under the same layout. -/
def headIdx {nh dh : ℕ} (ch : Fin (nh * dh)) : Fin nh :=
  ⟨ch.1 / dh, Nat.div_lt_of_lt_mul (Nat.lt_of_lt_of_le ch.2 (Nat.mul_comm nh dh).le)⟩

/-- Parameters of `nn.LayerNorm`: elementwise affine weights and the
numerical-stability constant `eps`. -/
structure LayerNormP (E : ℕ) where
  eps : ℝ
  scale : Fin E → ℝ
  shift : Fin E → ℝ

/-- Mean of a feature vector. -/
noncomputable def vmean {E : ℕ} (x : Fin E → ℝ) : ℝ := (∑ i, x i) / E

/-- Biased variance of a feature vector (as used by `nn.LayerNorm`). -/
noncomputable def vvar {E : ℕ} (x : Fin E → ℝ) : ℝ :=
  (∑ i, (x i - vmean x) ^ 2) / E

/-- `nn.LayerNorm` over the last axis:
`(x - μ) / sqrt (σ² + eps) * scale + shift`, acting on one position's
feature vector. -/
noncomputable def layerNorm {E : ℕ} (p : LayerNormP E) (x : Fin E → ℝ) :
    Fin E → ℝ :=
  fun i => (x i - vmean x) / Real.sqrt (vvar x + p.eps) * p.scale i + p.shift i

/-- Bias-free linear map (`nn.Linear(_, _, bias=False)`) on one position. -/
noncomputable def linearNoBias {In Out : ℕ} (W : Fin Out → Fin In → ℝ)
    (x : Fin In → ℝ) : Fin Out → ℝ :=
  fun o => ∑ i, W o i * x i

/-- `1×1 nn.Conv2d(_, _, 1, bias=False)` on a `[batch, channel, seq]`
tensor (the singleton spatial axis is dropped): a per-position linear map. -/
noncomputable def conv1x1 {B I O N : ℕ} (W : Fin O → Fin I → ℝ)
    (x : Fin B → Fin I → Fin N → ℝ) : Fin B → Fin O → Fin N → ℝ :=
  fun b o n => ∑ i, W o i * x b i n

/-- Standard Gaussian cumulative distribution function `Φ`. -/
noncomputable def gaussCdf (x : ℝ) : ℝ :=
  (∫ t in Set.Iic x, Real.exp (-(t ^ 2) / 2)) / Real.sqrt (2 * Real.pi)

/-- Exact GELU `x · Φ(x)` (`nn.GELU()` with its default, erf-based form). -/
noncomputable def gelu (x : ℝ) : ℝ := x * gaussCdf x

/-- Weights of `GLUTorch` (source lines 5-13). -/
structure GLUTorch (E M : ℕ) where
  ln0 : LayerNormP E
  ln1 : LayerNormP M
  fc0 : Fin M → Fin E → ℝ
  fc1 : Fin M → Fin E → ℝ
  fc2 : Fin E → Fin M → ℝ

/-- `GLUTorch.forward` (source lines 15-22) on one position's vector:
`z ← ln0 z; w ← gelu (fc0 z); v ← fc1 z; z ← ln1 (w * v); z ← fc2 z`. -/
noncomputable def GLUTorch.forward {E M : ℕ} (g : GLUTorch E M)
    (z0 : Fin E → ℝ) : Fin E → ℝ :=
  let z := layerNorm g.ln0 z0
  let w := fun m => gelu (linearNoBias g.fc0 z m)
  let v := linearNoBias g.fc1 z
  let z1 := layerNorm g.ln1 (fun m => w m * v m)
  linearNoBias g.fc2 z1

/-- `GLUTorch.forward` applied over a `[batch, seq, embed]` tensor
(the source applies the block over the leading `[*]` axes pointwise). -/
noncomputable def gluBatched {B N E M : ℕ} (g : GLUTorch E M)
    (x : Fin B → Fin N → Fin E → ℝ) : Fin B → Fin N → Fin E → ℝ :=
  fun b n => g.forward (x b n)

/-- Weights of `AttentionTorch` (source lines 24-34) with `nh` heads of
head dimension `dh` and embedding width `nh * dh`. -/
structure AttentionTorch (nh dh : ℕ) where
  k_proj : Fin (nh * dh) → Fin (nh * dh) → ℝ
  v_proj : Fin (nh * dh) → Fin (nh * dh) → ℝ
  q_proj : Fin (nh * dh) → Fin (nh * dh) → ℝ
  out_proj : Fin (nh * dh) → Fin (nh * dh) → ℝ

/-- `torch.where(attention_mask, 0, -inf)` (source lines 58-62), with
`⊥ : EReal` standing for `-inf`. -/
def attentionBias {B N : ℕ} (mask : Fin B → Fin N → Bool) :
    Fin B → Fin N → EReal :=
  fun b k => if mask b k then (0 : EReal) else ⊥

/-- Raw attention scores, `einsum('bchq,bkhc->bkhq', queries / dh ** 0.5,
keys)` (source lines 63-67): queries and keys arrive in `[b, channel, q]`
layout and the reshapes of lines 46-54 address head `hd`, in-head
coordinate `c` as channel `chIdx hd c`. -/
noncomputable def attentionScores {B N nh dh : ℕ}
    (queries keys : Fin B → Fin (nh * dh) → Fin N → ℝ) :
    Fin B → Fin N → Fin nh → Fin N → ℝ :=
  fun b k hd q =>
    ∑ c : Fin dh,
      (queries b (chIdx hd c) q / (dh : ℝ) ^ (0.5 : ℝ)) * keys b (chIdx hd c) k

/-- Scores after adding the broadcast mask bias
(`attention_weights += attention_bias[:, :, None, None]`, source line 68);
the bias depends only on the batch row and the key position. -/
noncomputable def attentionBiased {B N nh dh : ℕ}
    (queries keys : Fin B → Fin (nh * dh) → Fin N → ℝ)
    (mask : Fin B → Fin N → Bool) :
    Fin B → Fin N → Fin nh → Fin N → EReal :=
  fun b k hd q =>
    (attentionScores queries keys b k hd q : ℝ) + attentionBias mask b k

/-- Extended exponential: `Real.exp` on finite values and `0` at `-inf`,
as `torch.softmax` computes `exp` on a row containing `-inf` entries. -/
noncomputable def expE (x : EReal) : ℝ :=
  if x = ⊥ then 0 else Real.exp x.toReal

/-- `torch.softmax(attention_weights, 1)` (source line 69): softmax along
the key axis, per (batch, head, query) triple. -/
noncomputable def attentionWeights {B N nh dh : ℕ}
    (queries keys : Fin B → Fin (nh * dh) → Fin N → ℝ)
    (mask : Fin B → Fin N → Bool) :
    Fin B → Fin N → Fin nh → Fin N → ℝ :=
  fun b k hd q =>
    expE (attentionBiased queries keys mask b k hd q) /
      ∑ k', expE (attentionBiased queries keys mask b k' hd q)

/-- `einsum('bkhq,bchk->bchq', attention_weights, values)` followed by the
`bchq -> b(hc)1q` reshape (source lines 71-79): the weighted sum of value
vectors, back in channel layout. -/
noncomputable def attentionHidden {B N nh dh : ℕ}
    (queries keys values : Fin B → Fin (nh * dh) → Fin N → ℝ)
    (mask : Fin B → Fin N → Bool) :
    Fin B → Fin (nh * dh) → Fin N → ℝ :=
  fun b ch q =>
    ∑ k, attentionWeights queries keys mask b k (headIdx ch) q * values b ch k

/-- `AttentionTorch.forward` (source lines 36-82): masked scaled
dot-product attention over pre-projected keys/values/queries in
`[b, channel, q]` layout, finished by the output projection. -/
noncomputable def AttentionTorch.forward {B N nh dh : ℕ}
    (A : AttentionTorch nh dh)
    (keys values queries : Fin B → Fin (nh * dh) → Fin N → ℝ)
    (mask : Fin B → Fin N → Bool) : Fin B → Fin (nh * dh) → Fin N → ℝ :=
  fun b ch q =>
    linearNoBias A.out_proj
      (fun i => attentionHidden queries keys values mask b i q) ch

/-- `EncoderSelfAttentionTorch.forward` (source lines 85-96): transpose the
`[b, n, embed]` state to channel layout, derive keys/values/queries from it
with the three `1×1` projections, and run the shared attention forward. -/
noncomputable def EncoderSelfAttentionTorch.forward {B N nh dh : ℕ}
    (A : AttentionTorch nh dh)
    (encoder_state : Fin B → Fin N → Fin (nh * dh) → ℝ)
    (mask : Fin B → Fin N → Bool) : Fin B → Fin (nh * dh) → Fin N → ℝ :=
  let es := fun b ch n => encoder_state b n ch
  A.forward (conv1x1 A.k_proj es) (conv1x1 A.v_proj es)
    (conv1x1 A.q_proj es) mask

/-- Weights of `EncoderLayerTorch` (source lines 99-105). -/
structure EncoderLayerTorch (nh dh M : ℕ) where
  pre_self_attn_layer_norm : LayerNormP (nh * dh)
  self_attn : AttentionTorch nh dh
  self_attn_layer_norm : LayerNormP (nh * dh)
  glu : GLUTorch (nh * dh) M

/-- Source line 113: the pre-attention LayerNorm of the layer input. -/
noncomputable def layerNormed {B N nh dh M : ℕ} (L : EncoderLayerTorch nh dh M)
    (encoder_state : Fin B → Fin N → Fin (nh * dh) → ℝ) :
    Fin B → Fin N → Fin (nh * dh) → ℝ :=
  fun b n => layerNorm L.pre_self_attn_layer_norm (encoder_state b n)

/-- Source lines 112-117: self-attention of the normalized input, the
`bchq -> bqhc` transpose back, the post-attention LayerNorm, and the first
residual add. -/
noncomputable def layerResid1 {B N nh dh M : ℕ} (L : EncoderLayerTorch nh dh M)
    (encoder_state : Fin B → Fin N → Fin (nh * dh) → ℝ)
    (mask : Fin B → Fin N → Bool) : Fin B → Fin N → Fin (nh * dh) → ℝ :=
  fun b n ch =>
    encoder_state b n ch +
      layerNorm L.self_attn_layer_norm
        (fun c => EncoderSelfAttentionTorch.forward L.self_attn
          (layerNormed L encoder_state) mask b c n) ch

/-- `EncoderLayerTorch.forward` (source lines 107-121): pre-attention
LayerNorm, self-attention, post-attention LayerNorm, first residual add,
GLU block, second residual add. -/
noncomputable def EncoderLayerTorch.forward {B N nh dh M : ℕ}
    (L : EncoderLayerTorch nh dh M)
    (encoder_state : Fin B → Fin N → Fin (nh * dh) → ℝ)
    (mask : Fin B → Fin N → Bool) : Fin B → Fin N → Fin (nh * dh) → ℝ :=
  fun b n ch =>
    layerResid1 L encoder_state mask b n ch +
      L.glu.forward (layerResid1 L encoder_state mask b n) ch

/-- Weights of `DalleBartEncoderTorch` (source lines 124-145): token and
position embedding tables, the layer stack, and the two outer LayerNorms.
The token table is total over ids; the position table has capacity `P`
(`text_token_count`). -/
structure DalleBartEncoderTorch (nh dh M P : ℕ) where
  embed_tokens : ℕ → Fin (nh * dh) → ℝ
  embed_positions : Fin P → Fin (nh * dh) → ℝ
  layers : List (EncoderLayerTorch nh dh M)
  layernorm_embedding : LayerNormP (nh * dh)
  final_ln : LayerNormP (nh * dh)

/-- Source line 148: `attention_mask = text_tokens.not_equal(1)`. -/
def encoderMask {B N : ℕ} (text_tokens : Fin B → Fin N → ℕ) :
    Fin B → Fin N → Bool :=
  fun b n => text_tokens b n != 1

/-- Source lines 149-155: position indices `0..N-1` broadcast across the
batch, token embedding plus position embedding, then the embedding
LayerNorm. -/
noncomputable def encoderEmbed {nh dh M P : ℕ}
    (enc : DalleBartEncoderTorch nh dh M P) {B N : ℕ} (hNP : N ≤ P)
    (text_tokens : Fin B → Fin N → ℕ) :
    Fin B → Fin N → Fin (nh * dh) → ℝ :=
  fun b n => layerNorm enc.layernorm_embedding
    (fun ch => enc.embed_tokens (text_tokens b n) ch +
      enc.embed_positions (Fin.castLE hNP n) ch)

/-- `DalleBartEncoderTorch.forward` (source lines 147-159): mask from
`text_tokens.not_equal(1)`, positions `0..N-1` broadcast across the batch,
token plus position embedding, embedding LayerNorm, the layer stack in
order, final LayerNorm.  `hNP : N ≤ P` mirrors the requirement that the
sequence fits the position table. -/
noncomputable def DalleBartEncoderTorch.forward {nh dh M P : ℕ}
    (enc : DalleBartEncoderTorch nh dh M P) {B N : ℕ} (hNP : N ≤ P)
    (text_tokens : Fin B → Fin N → ℕ) :
    Fin B → Fin N → Fin (nh * dh) → ℝ :=
  fun b n => layerNorm enc.final_ln
    (enc.layers.foldl (fun s L => L.forward s (encoderMask text_tokens))
      (encoderEmbed enc hNP text_tokens) b n)

/-! ### Spec-side definitions

The following definitions transcribe the spec's own wording (spec.md §4.2,
§4.3, §4.4, §4.5, §6) so that the source-side definitions above can be
proved equal to them.  They are intentionally written in the spec's
`[batch, seq, embed]` layout and with the spec's closed-form masked
softmax. -/

/-- Spec §4.3 step 3: `score[i,j] = (q_i · k_j) / sqrt(head_dim)` per
batch row and head (arguments in the source's channel layout). -/
noncomputable def specAttentionScores {B N nh dh : ℕ}
    (queries keys : Fin B → Fin (nh * dh) → Fin N → ℝ) :
    Fin B → Fin nh → Fin N → Fin N → ℝ :=
  fun b hd i j =>
    (∑ c : Fin dh, queries b (chIdx hd c) i * keys b (chIdx hd c) j) /
      Real.sqrt (dh : ℝ)

/-- Spec §4.3 steps 4-5 in closed form: a masked key column gets exactly
zero weight; an unmasked one gets `exp score` normalized over the unmasked
key set. -/
noncomputable def specAttentionWeights {B N nh dh : ℕ}
    (queries keys : Fin B → Fin (nh * dh) → Fin N → ℝ)
    (mask : Fin B → Fin N → Bool) :
    Fin B → Fin nh → Fin N → Fin N → ℝ :=
  fun b hd i j =>
    if mask b j then
      Real.exp (specAttentionScores queries keys b hd i j) /
        ∑ j' ∈ Finset.univ.filter (fun j' => mask b j' = true),
          Real.exp (specAttentionScores queries keys b hd i j')
    else 0

/-- Spec §4.3 steps 1-7 as one function on the `[batch, seq, embed]`
layout: pointwise q/k/v projections, per-head masked softmax attention,
weighted sum of values, concatenation, output projection. -/
noncomputable def specMultiHeadAttention {B N nh dh : ℕ}
    (A : AttentionTorch nh dh)
    (x : Fin B → Fin N → Fin (nh * dh) → ℝ)
    (mask : Fin B → Fin N → Bool) : Fin B → Fin N → Fin (nh * dh) → ℝ :=
  let q := fun b n => linearNoBias A.q_proj (x b n)
  let k := fun b n => linearNoBias A.k_proj (x b n)
  let v := fun b n => linearNoBias A.v_proj (x b n)
  let w := specAttentionWeights (fun b ch n => q b n ch)
    (fun b ch n => k b n ch) mask
  let attended := fun b i ch => ∑ j, w b (headIdx ch) i j * v b j ch
  fun b i => linearNoBias A.out_proj (attended b i)

/-- Spec §4.2 steps 1-6: LayerNorm, two bias-free branches, GELU on branch
A only, gating product, second LayerNorm, projection back. -/
noncomputable def specGatedFeedForward {E M : ℕ} (g : GLUTorch E M)
    (x : Fin E → ℝ) : Fin E → ℝ :=
  let normalized := layerNorm g.ln0 x
  let branchA := linearNoBias g.fc0 normalized
  let branchB := linearNoBias g.fc1 normalized
  let activatedA := fun m => gelu (branchA m)
  let gated := fun m => activatedA m * branchB m
  let normalized2 := layerNorm g.ln1 gated
  linearNoBias g.fc2 normalized2

/-- Spec §4.4 steps 1-8: pre-attention norm, self-attention of the
normalized input against itself, post-attention norm, first residual,
GLU block, second residual. -/
noncomputable def specEncoderLayer {B N nh dh M : ℕ}
    (L : EncoderLayerTorch nh dh M)
    (x : Fin B → Fin N → Fin (nh * dh) → ℝ)
    (mask : Fin B → Fin N → Bool) : Fin B → Fin N → Fin (nh * dh) → ℝ :=
  let normalized := fun b n => layerNorm L.pre_self_attn_layer_norm (x b n)
  let attended := specMultiHeadAttention L.self_attn normalized mask
  let attended2 := fun b n => layerNorm L.self_attn_layer_norm (attended b n)
  let output := fun b n ch => x b n ch + attended2 b n ch
  fun b n ch => output b n ch + specGatedFeedForward L.glu (output b n) ch

/-- Spec §6: the pad token id is the fixed protocol constant `1`. -/
def padTokenId : ℕ := 1

/-- Spec §4.5 step 5: apply the `layer_count` encoder layers in fixed
order (structural recursion over the layer list). -/
noncomputable def applyLayers {B N nh dh M : ℕ} :
    List (EncoderLayerTorch nh dh M) → (Fin B → Fin N → Bool) →
    (Fin B → Fin N → Fin (nh * dh) → ℝ) →
    Fin B → Fin N → Fin (nh * dh) → ℝ
  | [], _, s => s
  | L :: ls, mask, s => applyLayers ls mask (L.forward s mask)

/-- Spec §4.5 steps 1-7: mask from `token ≠ padTokenId`, positions
`[0, seq_len)` identical across the batch, sum of token and position
embeddings, embedding norm, layer stack, final norm. -/
noncomputable def specEncode {nh dh M P : ℕ}
    (enc : DalleBartEncoderTorch nh dh M P) {B N : ℕ} (hNP : N ≤ P)
    (tokens : Fin B → Fin N → ℕ) : Fin B → Fin N → Fin (nh * dh) → ℝ :=
  let mask := fun b n => tokens b n != padTokenId
  let positions : Fin B → Fin N → Fin P := fun _ n => Fin.castLE hNP n
  let hidden0 := fun b n ch =>
    enc.embed_tokens (tokens b n) ch + enc.embed_positions (positions b n) ch
  let hidden1 := fun b n => layerNorm enc.layernorm_embedding (hidden0 b n)
  let hiddenL := applyLayers enc.layers mask hidden1
  fun b n => layerNorm enc.final_ln (hiddenL b n)

/-! ### Construction (`__init__`) of the attention module

`AttentionTorch.__init__` (source lines 25-34) only stores its arguments
and computes `head_dim = embed_count // head_count` by floor division; it
contains no assertion, raise, or other validation.  The one failure the
interpreter itself produces in these lines is the `ZeroDivisionError` of
line 29 when `head_count = 0`, modelled as `none`; every other
configuration is stored as given.  The spec-side variant transcribes the
spec's claim that divisibility and positivity are checked at
construction. -/

/-- The scalar fields computed by `AttentionTorch.__init__`. -/
structure AttentionInitResult where
  head_count : ℕ
  embed_count : ℕ
  head_dim : ℕ
deriving DecidableEq

/-- `AttentionTorch.__init__` (source lines 25-34): stores the counts and
computes `head_dim = embed_count // head_count`; `none` models the
`ZeroDivisionError` raised by the division at `head_count = 0`, the only
way these lines can fail. -/
def attentionTorchInit (head_count embed_count : ℕ) :
    Option AttentionInitResult :=
  if head_count = 0 then none
  else some
    { head_count := head_count
      embed_count := embed_count
      head_dim := embed_count / head_count }

/-- Spec-side construction (spec §4.3 step 2, §7): "head_count must evenly
divide embed_dim (a precondition checked at construction)" and
"non-positive dimensions ... detected at construction, fatal, fail fast";
`none` models the fail-fast error. -/
def specAttentionInit (head_count embed_count : ℕ) :
    Option AttentionInitResult :=
  if 0 < head_count ∧ 0 < embed_count ∧ embed_count % head_count = 0 then
    some ⟨head_count, embed_count, embed_count / head_count⟩
  else none

/-! ### Shape bookkeeping and pad extension -/

/-- Runtime shape of a `[batch, seq, embed]` tensor. -/
def tshape3 {B N E : ℕ} (_ : Fin B → Fin N → Fin E → ℝ) : List ℕ :=
  [B, N, E]

/-- Runtime shape of a `[batch, channel, 1, seq]` tensor as handled by
`AttentionTorch.forward` (the singleton spatial axis restored). -/
def tshapeChan {B E N : ℕ} (_ : Fin B → Fin E → Fin N → ℝ) : List ℕ :=
  [B, E, 1, N]

/-- Append `m` pad tokens (id `1`) to every row of a token batch. -/
def extendTokens {B N : ℕ} (m : ℕ) (t : Fin B → Fin N → ℕ) :
    Fin B → Fin (N + m) → ℕ :=
  fun b k => if h : (k : ℕ) < N then t b ⟨k, h⟩ else 1

/-! ### Concrete instances used to exercise the theorems -/

/-- Zero LayerNorm parameters. -/
def lnZeroE (E : ℕ) : LayerNormP E := ⟨0, fun _ => 0, fun _ => 0⟩

/-- A single-head, head-dimension-one attention module with zero weights. -/
def attnZero : AttentionTorch 1 1 :=
  ⟨fun _ _ => 0, fun _ _ => 0, fun _ _ => 0, fun _ _ => 0⟩

/-- A minimal encoder layer with zero weights. -/
def layerZero : EncoderLayerTorch 1 1 1 :=
  ⟨lnZeroE (1 * 1), attnZero, lnZeroE (1 * 1),
    ⟨lnZeroE (1 * 1), lnZeroE 1, fun _ _ => 0, fun _ _ => 0, fun _ _ => 0⟩⟩

/-- A minimal one-layer encoder with zero weights and position capacity 2. -/
def encZero : DalleBartEncoderTorch 1 1 1 2 :=
  ⟨fun _ _ => 0, fun _ _ => 0, [layerZero], lnZeroE (1 * 1), lnZeroE (1 * 1)⟩

/-- The zero `[1, 1, 1]` channel-layout tensor. -/
def tens0 : Fin 1 → Fin (1 * 1) → Fin 1 → ℝ := fun _ _ _ => 0

/-- The all-`True` single-position mask. -/
def allTrueMask : Fin 1 → Fin 1 → Bool := fun _ _ => true

/-! ### Lemmas about the masked softmax core -/

theorem expE_bot : expE ⊥ = 0 := by
  simp [expE]

theorem expE_coe (x : ℝ) : expE (x : EReal) = Real.exp x := by
  simp [expE, EReal.coe_ne_bot, EReal.toReal_coe]

/-- The reshape/einsum score of the source equals the spec's
`(q · k) / sqrt(head_dim)` per head. -/
theorem attentionScores_eq_spec {B N nh dh : ℕ}
    (qs ks : Fin B → Fin (nh * dh) → Fin N → ℝ)
    (b : Fin B) (k : Fin N) (hd : Fin nh) (q : Fin N) :
    attentionScores qs ks b k hd q = specAttentionScores qs ks b hd q k := by
  simp only [attentionScores, specAttentionScores]
  rw [Real.sqrt_eq_rpow, show (1 / (2 : ℝ)) = (0.5 : ℝ) by norm_num,
    Finset.sum_div]
  exact Finset.sum_congr rfl fun c _ => div_mul_eq_mul_div _ _ _

/-- Adding the `torch.where` bias sends a masked key column to `-inf` and
leaves an unmasked one at its score, uniformly in head and query. -/
theorem attentionBiased_eq_spec {B N nh dh : ℕ}
    (qs ks : Fin B → Fin (nh * dh) → Fin N → ℝ)
    (mask : Fin B → Fin N → Bool)
    (b : Fin B) (k : Fin N) (hd : Fin nh) (q : Fin N) :
    attentionBiased qs ks mask b k hd q =
      if mask b k then ((specAttentionScores qs ks b hd q k : ℝ) : EReal)
      else ⊥ := by
  simp only [attentionBiased, attentionBias, attentionScores_eq_spec]
  cases h : mask b k
  · simp [h]
  · simp [h]

/-- Exponential of a biased score: `exp score` on an unmasked column,
`0` on a masked one. -/
theorem expE_attentionBiased {B N nh dh : ℕ}
    (qs ks : Fin B → Fin (nh * dh) → Fin N → ℝ)
    (mask : Fin B → Fin N → Bool)
    (b : Fin B) (k : Fin N) (hd : Fin nh) (q : Fin N) :
    expE (attentionBiased qs ks mask b k hd q) =
      if mask b k then Real.exp (specAttentionScores qs ks b hd q k)
      else 0 := by
  rw [attentionBiased_eq_spec]
  cases h : mask b k
  · simp [h, expE_bot]
  · simp [h, expE_coe]

/-- The source softmax over the key axis equals the spec's closed-form
masked softmax. -/
theorem attentionWeights_eq_spec {B N nh dh : ℕ}
    (qs ks : Fin B → Fin (nh * dh) → Fin N → ℝ)
    (mask : Fin B → Fin N → Bool)
    (b : Fin B) (k : Fin N) (hd : Fin nh) (q : Fin N) :
    attentionWeights qs ks mask b k hd q =
      specAttentionWeights qs ks mask b hd q k := by
  simp only [attentionWeights, specAttentionWeights]
  have hden : (∑ k', expE (attentionBiased qs ks mask b k' hd q)) =
      ∑ j' ∈ Finset.univ.filter (fun j' => mask b j' = true),
        Real.exp (specAttentionScores qs ks b hd q j') := by
    rw [Finset.sum_filter]
    exact Finset.sum_congr rfl fun k' _ => expE_attentionBiased qs ks mask b k' hd q
  rw [hden, expE_attentionBiased]
  cases h : mask b k
  · simp [h]
  · simp [h]

/-- C1: for every batch row, head, query position and key position, the
raw attention score is the scaled dot product `(q_i · k_j) / sqrt(head_dim)`
of the per-head query and key vectors; the pre-softmax bias sends exactly
the masked key columns to `-inf`, identically across heads and query
positions; and the softmax normalizes over the key axis per
(batch, head, query) triple, yielding the spec's masked softmax. -/
theorem C1_attention_score_mask_softmax {B N nh dh : ℕ}
    (qs ks : Fin B → Fin (nh * dh) → Fin N → ℝ)
    (mask : Fin B → Fin N → Bool) :
    (∀ (b : Fin B) (k : Fin N) (hd : Fin nh) (q : Fin N),
      attentionScores qs ks b k hd q =
        (∑ c : Fin dh, qs b (chIdx hd c) q * ks b (chIdx hd c) k) /
          Real.sqrt (dh : ℝ)) ∧
    (∀ (b : Fin B) (k : Fin N) (hd : Fin nh) (q : Fin N),
      attentionBiased qs ks mask b k hd q =
        if mask b k then ((attentionScores qs ks b k hd q : ℝ) : EReal)
        else ⊥) ∧
    (∀ (b : Fin B) (k : Fin N) (hd : Fin nh) (q : Fin N),
      attentionWeights qs ks mask b k hd q =
        specAttentionWeights qs ks mask b hd q k) := by
  refine ⟨fun b k hd q => attentionScores_eq_spec qs ks b k hd q,
    fun b k hd q => ?_, fun b k hd q => attentionWeights_eq_spec qs ks mask b k hd q⟩
  rw [attentionBiased_eq_spec, attentionScores_eq_spec]

/-- C4: the GLU block computes exactly LayerNorm, two independent
bias-free branches, GELU on branch A only, the gating product, a second
LayerNorm, and the bias-free projection back to `embed_dim`. -/
theorem C4_glu_pipeline {E M : ℕ} (g : GLUTorch E M) (z : Fin E → ℝ) :
    g.forward z = specGatedFeedForward g z :=
  rfl

/-- C5: with at least one unmasked key in the row, the post-softmax
attention probabilities put total weight `0` on the masked key columns and
total weight `1` on the unmasked key set, for every batch row, head and
query position. -/
theorem C5_mask_zero_weight_softmax_sums_one {B N nh dh : ℕ}
    (qs ks : Fin B → Fin (nh * dh) → Fin N → ℝ)
    (mask : Fin B → Fin N → Bool)
    (b : Fin B) (hd : Fin nh) (q : Fin N)
    (hrow : ∃ k, mask b k = true) :
    (∑ k ∈ Finset.univ.filter (fun k => mask b k = false),
        attentionWeights qs ks mask b k hd q) = 0 ∧
    (∑ k ∈ Finset.univ.filter (fun k => mask b k = true),
        attentionWeights qs ks mask b k hd q) = 1 := by
  have hS : (0 : ℝ) <
      ∑ j' ∈ Finset.univ.filter (fun j' => mask b j' = true),
        Real.exp (specAttentionScores qs ks b hd q j') := by
    obtain ⟨k₀, hk₀⟩ := hrow
    exact Finset.sum_pos (fun i _ => Real.exp_pos _)
      ⟨k₀, Finset.mem_filter.mpr ⟨Finset.mem_univ _, hk₀⟩⟩
  constructor
  · refine Finset.sum_eq_zero fun k hk => ?_
    rw [attentionWeights_eq_spec]
    simp [specAttentionWeights, (Finset.mem_filter.mp hk).2]
  · have hterm : ∀ k ∈ Finset.univ.filter (fun k => mask b k = true),
        attentionWeights qs ks mask b k hd q =
          Real.exp (specAttentionScores qs ks b hd q k) /
            ∑ j' ∈ Finset.univ.filter (fun j' => mask b j' = true),
              Real.exp (specAttentionScores qs ks b hd q j') := by
      intro k hk
      rw [attentionWeights_eq_spec]
      simp [specAttentionWeights, (Finset.mem_filter.mp hk).2]
    rw [Finset.sum_congr rfl hterm, ← Finset.sum_div, div_self hS.ne']

/-- Witness for C5 at a concrete all-unmasked single-key instance. -/
theorem C5_mask_zero_weight_softmax_sums_one_witness :
    (∃ k : Fin 1, (fun (_ : Fin 1) (_ : Fin 1) => true) (0 : Fin 1) k = true) ∧
    ((∑ k ∈ Finset.univ.filter
        (fun k : Fin 1 => (fun (_ : Fin 1) (_ : Fin 1) => true) (0 : Fin 1) k = false),
        attentionWeights
          (fun (_ : Fin 1) (_ : Fin (1 * 1)) (_ : Fin 1) => (0 : ℝ))
          (fun (_ : Fin 1) (_ : Fin (1 * 1)) (_ : Fin 1) => (0 : ℝ))
          (fun (_ : Fin 1) (_ : Fin 1) => true) 0 k 0 0) = 0 ∧
      (∑ k ∈ Finset.univ.filter
        (fun k : Fin 1 => (fun (_ : Fin 1) (_ : Fin 1) => true) (0 : Fin 1) k = true),
        attentionWeights
          (fun (_ : Fin 1) (_ : Fin (1 * 1)) (_ : Fin 1) => (0 : ℝ))
          (fun (_ : Fin 1) (_ : Fin (1 * 1)) (_ : Fin 1) => (0 : ℝ))
          (fun (_ : Fin 1) (_ : Fin 1) => true) 0 k 0 0) = 1) :=
  ⟨⟨0, rfl⟩,
    C5_mask_zero_weight_softmax_sums_one
      (fun (_ : Fin 1) (_ : Fin (1 * 1)) (_ : Fin 1) => (0 : ℝ))
      (fun (_ : Fin 1) (_ : Fin (1 * 1)) (_ : Fin 1) => (0 : ℝ))
      (fun (_ : Fin 1) (_ : Fin 1) => true)
      0 0 0 ⟨0, rfl⟩⟩

/-! ### Construction, pipeline, shape and single-position claims -/

/-- Counterexample to C6: at `head_count = 3`, `embed_count = 8` the spec
demands a fail-fast construction error (`none`), but
`AttentionTorch.__init__` succeeds, silently flooring
`head_dim = 8 // 3 = 2`; the source lines 25-34 contain no check. -/
theorem C6_counterexample_construction_succeeds :
    specAttentionInit 3 8 = none ∧ attentionTorchInit 3 8 = some ⟨3, 8, 2⟩ := by
  constructor
  · decide
  · decide

/-- C6 amended: the divisibility precondition is not checked at
construction: for every positive `head_count`, even one that does not
divide `embed_count`, construction succeeds, storing the floored
`head_dim = embed_count // head_count` (which then does not reconstitute
`embed_count`); the only configuration that fails at construction is
`head_count = 0`, through the `ZeroDivisionError` of the division itself. -/
theorem C6_divisibility_not_checked (head_count embed_count : ℕ) :
    (0 < head_count → ¬ head_count ∣ embed_count →
      attentionTorchInit head_count embed_count =
        some ⟨head_count, embed_count, embed_count / head_count⟩ ∧
      embed_count / head_count * head_count ≠ embed_count) ∧
    attentionTorchInit 0 embed_count = none := by
  refine ⟨fun h0 hnd => ⟨by simp [attentionTorchInit, h0.ne'], fun heq => hnd ?_⟩, ?_⟩
  · exact ⟨embed_count / head_count, by rw [Nat.mul_comm]; exact heq.symm⟩
  · simp [attentionTorchInit]

/-- Witness for the amended C6 at `head_count = 3`, `embed_count = 8`. -/
theorem C6_divisibility_not_checked_witness :
    ((0 < 3) ∧ ¬ (3 ∣ 8)) ∧
    (attentionTorchInit 3 8 = some ⟨3, 8, 2⟩ ∧ 8 / 3 * 3 ≠ 8) ∧
    attentionTorchInit 0 8 = none :=
  ⟨⟨by decide, by decide⟩,
    (C6_divisibility_not_checked 3 8).1 (by decide) (by decide),
    (C6_divisibility_not_checked 3 8).2⟩

theorem foldl_eq_applyLayers {B N nh dh M : ℕ}
    (ls : List (EncoderLayerTorch nh dh M)) (mask : Fin B → Fin N → Bool) :
    ∀ s : Fin B → Fin N → Fin (nh * dh) → ℝ,
      ls.foldl (fun st L => L.forward st mask) s = applyLayers ls mask s := by
  induction ls with
  | nil => intro s; rfl
  | cons L ls ih => intro s; simp only [List.foldl_cons, applyLayers]; exact ih _

/-- C2: the encoder forward computes exactly the spec pipeline: mask
`token ≠ 1` with the pad id fixed at `1`, positions `[0, seq_len)`
broadcast across the batch, token-plus-position embedding, embedding
LayerNorm, the layers in fixed order each receiving the unchanged mask,
and the final LayerNorm. -/
theorem C2_encoder_pipeline {nh dh M P : ℕ}
    (enc : DalleBartEncoderTorch nh dh M P) {B N : ℕ} (hNP : N ≤ P)
    (tokens : Fin B → Fin N → ℕ) :
    enc.forward hNP tokens = specEncode enc hNP tokens := by
  funext b n
  simp only [DalleBartEncoderTorch.forward, specEncode, foldl_eq_applyLayers]
  rfl

/-- Witness for C2 on a concrete one-layer encoder. -/
theorem C2_encoder_pipeline_witness :
    ((1 : ℕ) ≤ 2) ∧
    encZero.forward (by decide) (fun (_ : Fin 1) (_ : Fin 1) => (5 : ℕ)) =
      specEncode encZero (by decide) (fun (_ : Fin 1) (_ : Fin 1) => (5 : ℕ)) :=
  ⟨by decide, C2_encoder_pipeline encZero (by decide) _⟩

/-- C8: the GLU block and the attention module are shape-preserving; in
this embedding the runtime shape of a tensor is carried by its index
types, recorded by `tshape3` and `tshapeChan`. -/
theorem C8_shape_preserving {B N E M nh dh : ℕ} (g : GLUTorch E M)
    (x : Fin B → Fin N → Fin E → ℝ) (A : AttentionTorch nh dh)
    (ks vs qs : Fin B → Fin (nh * dh) → Fin N → ℝ)
    (mask : Fin B → Fin N → Bool) :
    tshape3 (gluBatched g x) = tshape3 x ∧
    tshapeChan (A.forward ks vs qs mask) = tshapeChan ks :=
  ⟨rfl, rfl⟩

/-- C9: on a single-position sequence with an all-`True` mask, the softmax
of the single score is `1`, so the weighted sum of values equals the value
projection itself, and the attention output is the output projection
applied to that value projection. -/
theorem C9_single_position_attention {B nh dh : ℕ} (A : AttentionTorch nh dh)
    (ks vs qs : Fin B → Fin (nh * dh) → Fin 1 → ℝ)
    (mask : Fin B → Fin 1 → Bool) (hm : ∀ b k, mask b k = true) :
    (∀ b ch q, attentionHidden qs ks vs mask b ch q = vs b ch q) ∧
    (∀ b ch q, A.forward ks vs qs mask b ch q = conv1x1 A.out_proj vs b ch q) := by
  have hw : ∀ b k hd q, attentionWeights qs ks mask b k hd q = 1 := by
    intro b k hd q
    rw [attentionWeights_eq_spec, show k = (0 : Fin 1) from Subsingleton.elim _ _,
      show q = (0 : Fin 1) from Subsingleton.elim _ _]
    simp only [specAttentionWeights, hm, if_true, Finset.filter_True,
      Fin.sum_univ_one]
    exact div_self (Real.exp_ne_zero _)
  have hhid : ∀ b ch q, attentionHidden qs ks vs mask b ch q = vs b ch q := by
    intro b ch q
    simp only [attentionHidden, hw, one_mul, Fin.sum_univ_one]
    exact congrArg (vs b ch) (Subsingleton.elim _ _)
  refine ⟨hhid, fun b ch q => ?_⟩
  simp only [AttentionTorch.forward, linearNoBias, conv1x1]
  exact Finset.sum_congr rfl fun i _ => by rw [hhid]

/-- Witness for C9 on the concrete zero-weight single-head module. -/
theorem C9_single_position_attention_witness :
    (∀ (b : Fin 1) (k : Fin 1), allTrueMask b k = true) ∧
    ((∀ b ch q, attentionHidden tens0 tens0 tens0 allTrueMask b ch q =
        tens0 b ch q) ∧
      (∀ b ch q, attnZero.forward tens0 tens0 tens0 allTrueMask b ch q =
        conv1x1 attnZero.out_proj tens0 b ch q)) :=
  ⟨fun _ _ => rfl,
    C9_single_position_attention attnZero tens0 tens0 tens0 allTrueMask
      (fun _ _ => rfl)⟩

/-- The source self-attention wrapper (projections in channel layout plus
the shared attention forward) equals the spec's multi-head attention on the
`[batch, seq, embed]` layout. -/
theorem selfAttn_eq_specMHA {B N nh dh : ℕ} (A : AttentionTorch nh dh)
    (x : Fin B → Fin N → Fin (nh * dh) → ℝ) (mask : Fin B → Fin N → Bool)
    (b : Fin B) (ch : Fin (nh * dh)) (n : Fin N) :
    EncoderSelfAttentionTorch.forward A x mask b ch n =
      specMultiHeadAttention A x mask b n ch := by
  have hq : conv1x1 A.q_proj (fun b ch n => x b n ch) =
      fun b ch n => ∑ i : Fin (nh * dh), A.q_proj ch i * x b n i := rfl
  have hk : conv1x1 A.k_proj (fun b ch n => x b n ch) =
      fun b ch n => ∑ i : Fin (nh * dh), A.k_proj ch i * x b n i := rfl
  simp only [EncoderSelfAttentionTorch.forward, AttentionTorch.forward,
    specMultiHeadAttention, attentionHidden, linearNoBias, conv1x1,
    attentionWeights_eq_spec, hq, hk]

/-- C3: an encoder layer computes exactly pre-attention LayerNorm,
self-attention with queries/keys/values all derived from that normalized
input, post-attention LayerNorm, the first residual add of the original
input, then the GLU block with the second residual add. -/
theorem C3_encoder_layer {B N nh dh M : ℕ} (L : EncoderLayerTorch nh dh M)
    (x : Fin B → Fin N → Fin (nh * dh) → ℝ) (mask : Fin B → Fin N → Bool) :
    L.forward x mask = specEncoderLayer L x mask := by
  funext b n ch
  simp only [EncoderLayerTorch.forward, specEncoderLayer]
  have hres : layerResid1 L x mask b n = fun c =>
      x b n c + layerNorm L.self_attn_layer_norm
        (specMultiHeadAttention L.self_attn
          (fun b n => layerNorm L.pre_self_attn_layer_norm (x b n)) mask b n)
        c := by
    funext c
    have hnorm : layerNormed L x =
        fun b n => layerNorm L.pre_self_attn_layer_norm (x b n) := rfl
    simp only [layerResid1, hnorm]
    have hvec : (fun c' => EncoderSelfAttentionTorch.forward L.self_attn
        (fun b n => layerNorm L.pre_self_attn_layer_norm (x b n)) mask b c' n) =
        specMultiHeadAttention L.self_attn
          (fun b n => layerNorm L.pre_self_attn_layer_norm (x b n)) mask b n :=
      funext fun c' => selfAttn_eq_specMHA L.self_attn _ mask b c' n
    rw [hvec]
  rw [hres]
  rfl

/-! ### Batch locality: every operation of the encoder reads only its own
batch row, so a forward output row depends only on that row's tokens. -/

theorem selfAttn_batch_local {B B' N nh dh : ℕ} (A : AttentionTorch nh dh)
    (x : Fin B → Fin N → Fin (nh * dh) → ℝ)
    (y : Fin B' → Fin N → Fin (nh * dh) → ℝ)
    (mask : Fin B → Fin N → Bool) (mask' : Fin B' → Fin N → Bool)
    (b : Fin B) (b' : Fin B') (hx : x b = y b') (hm : mask b = mask' b') :
    EncoderSelfAttentionTorch.forward A x mask b =
      EncoderSelfAttentionTorch.forward A y mask' b' := by
  funext ch n
  simp only [EncoderSelfAttentionTorch.forward, AttentionTorch.forward,
    attentionHidden, attentionWeights, attentionBiased, attentionScores,
    attentionBias, linearNoBias, conv1x1, hx, hm]

theorem encoderLayer_batch_local {B B' N nh dh M : ℕ}
    (L : EncoderLayerTorch nh dh M)
    (x : Fin B → Fin N → Fin (nh * dh) → ℝ)
    (y : Fin B' → Fin N → Fin (nh * dh) → ℝ)
    (mask : Fin B → Fin N → Bool) (mask' : Fin B' → Fin N → Bool)
    (b : Fin B) (b' : Fin B') (hx : x b = y b') (hm : mask b = mask' b') :
    L.forward x mask b = L.forward y mask' b' := by
  have hn : layerNormed L x b = layerNormed L y b' := by
    funext n; simp only [layerNormed]; rw [hx]
  have hsa := selfAttn_batch_local L.self_attn (layerNormed L x)
    (layerNormed L y) mask mask' b b' hn hm
  have hr : layerResid1 L x mask b = layerResid1 L y mask' b' := by
    funext n ch
    simp only [layerResid1, hx, hsa]
  funext n ch
  simp only [EncoderLayerTorch.forward, hr]

theorem foldlLayers_batch_local {B B' N nh dh M : ℕ}
    (ls : List (EncoderLayerTorch nh dh M))
    (mask : Fin B → Fin N → Bool) (mask' : Fin B' → Fin N → Bool)
    (b : Fin B) (b' : Fin B') (hm : mask b = mask' b') :
    ∀ (s : Fin B → Fin N → Fin (nh * dh) → ℝ)
      (s' : Fin B' → Fin N → Fin (nh * dh) → ℝ), s b = s' b' →
      ls.foldl (fun st L => L.forward st mask) s b =
        ls.foldl (fun st L => L.forward st mask') s' b' := by
  induction ls with
  | nil => intro s s' h; exact h
  | cons L ls ih =>
      intro s s' h
      simp only [List.foldl_cons]
      exact ih _ _ (encoderLayer_batch_local L s s' mask mask' b b' h hm)

theorem encoder_forward_batch_local {nh dh M P : ℕ}
    (enc : DalleBartEncoderTorch nh dh M P) {B B' N : ℕ} (hNP : N ≤ P)
    (t : Fin B → Fin N → ℕ) (t' : Fin B' → Fin N → ℕ)
    (b : Fin B) (b' : Fin B') (ht : t b = t' b') :
    enc.forward hNP t b = enc.forward hNP t' b' := by
  have hm : encoderMask t b = encoderMask t' b' := by
    funext n; simp only [encoderMask]; rw [ht]
  have he : encoderEmbed enc hNP t b = encoderEmbed enc hNP t' b' := by
    funext n; simp only [encoderEmbed]; rw [ht]
  funext n
  simp only [DalleBartEncoderTorch.forward]
  rw [foldlLayers_batch_local enc.layers (encoderMask t) (encoderMask t')
    b b' hm (encoderEmbed enc hNP t) (encoderEmbed enc hNP t') he]

/-- C7: encoding is a batch homomorphism: stacking two single-row token
sequences as a batch of two yields, per row, exactly the same output as
encoding each row alone as a batch of one. -/
theorem C7_batch_independence {nh dh M P : ℕ}
    (enc : DalleBartEncoderTorch nh dh M P) {N : ℕ} (hNP : N ≤ P)
    (t0 t1 : Fin N → ℕ) :
    enc.forward hNP ![t0, t1] 0 = enc.forward hNP ![t0] 0 ∧
    enc.forward hNP ![t0, t1] 1 = enc.forward hNP ![t1] 0 :=
  ⟨encoder_forward_batch_local enc hNP ![t0, t1] ![t0] 0 0 (by simp),
   encoder_forward_batch_local enc hNP ![t0, t1] ![t1] 1 0 (by simp)⟩

/-- Witness for C7 on the concrete one-layer encoder. -/
theorem C7_batch_independence_witness :
    ((1 : ℕ) ≤ 2) ∧
    (encZero.forward (by decide) ![fun (_ : Fin 1) => (2 : ℕ), fun _ => 3] 0 =
        encZero.forward (by decide) ![fun (_ : Fin 1) => (2 : ℕ)] 0 ∧
      encZero.forward (by decide) ![fun (_ : Fin 1) => (2 : ℕ), fun _ => 3] 1 =
        encZero.forward (by decide) ![fun (_ : Fin 1) => (3 : ℕ)] 0) :=
  ⟨by decide, C7_batch_independence encZero (by decide) _ _⟩

/-! ### Pad extension: appended pad keys are masked, get zero attention
weight, contribute zero to the softmax denominator, and every other
operation acts per position, so outputs at original positions are
unchanged. -/

theorem extendTokens_cast {B N : ℕ} (m : ℕ) (t : Fin B → Fin N → ℕ)
    (b : Fin B) (n : Fin N) :
    extendTokens m t b (Fin.castAdd m n) = t b n := by
  simp only [extendTokens, Fin.coe_castAdd]
  rw [dif_pos n.2, Fin.eta]

theorem extendTokens_pad {B N : ℕ} (m : ℕ) (t : Fin B → Fin N → ℕ)
    (b : Fin B) (k : Fin m) :
    extendTokens m t b (Fin.natAdd N k) = 1 := by
  simp only [extendTokens, Fin.coe_natAdd]
  rw [dif_neg (by omega)]

theorem encoderMask_extend_cast {B N : ℕ} (m : ℕ) (t : Fin B → Fin N → ℕ)
    (b : Fin B) (n : Fin N) :
    encoderMask (extendTokens m t) b (Fin.castAdd m n) = encoderMask t b n := by
  simp only [encoderMask, extendTokens_cast]

theorem encoderMask_extend_pad {B N : ℕ} (m : ℕ) (t : Fin B → Fin N → ℕ)
    (b : Fin B) (k : Fin m) :
    encoderMask (extendTokens m t) b (Fin.natAdd N k) = false := by
  simp [encoderMask, extendTokens_pad]

theorem specAttentionScores_extend {B N m nh dh : ℕ}
    (qsX ksX : Fin B → Fin (nh * dh) → Fin (N + m) → ℝ)
    (qs ks : Fin B → Fin (nh * dh) → Fin N → ℝ)
    (hq : ∀ b ch n, qsX b ch (Fin.castAdd m n) = qs b ch n)
    (hk : ∀ b ch n, ksX b ch (Fin.castAdd m n) = ks b ch n)
    (b : Fin B) (hd : Fin nh) (q k : Fin N) :
    specAttentionScores qsX ksX b hd (Fin.castAdd m q) (Fin.castAdd m k) =
      specAttentionScores qs ks b hd q k := by
  simp only [specAttentionScores, hq, hk]

theorem attentionDenom_extend {B N m nh dh : ℕ}
    (qsX ksX : Fin B → Fin (nh * dh) → Fin (N + m) → ℝ)
    (qs ks : Fin B → Fin (nh * dh) → Fin N → ℝ)
    (maskX : Fin B → Fin (N + m) → Bool) (mask : Fin B → Fin N → Bool)
    (hq : ∀ b ch n, qsX b ch (Fin.castAdd m n) = qs b ch n)
    (hk : ∀ b ch n, ksX b ch (Fin.castAdd m n) = ks b ch n)
    (hm1 : ∀ b n, maskX b (Fin.castAdd m n) = mask b n)
    (hm0 : ∀ b k, maskX b (Fin.natAdd N k) = false)
    (b : Fin B) (hd : Fin nh) (q : Fin N) :
    (∑ k' : Fin (N + m),
        expE (attentionBiased qsX ksX maskX b k' hd (Fin.castAdd m q))) =
      ∑ k' : Fin N, expE (attentionBiased qs ks mask b k' hd q) := by
  rw [Fin.sum_univ_add]
  have h2 : (∑ k' : Fin m,
      expE (attentionBiased qsX ksX maskX b (Fin.natAdd N k') hd
        (Fin.castAdd m q))) = 0 := by
    refine Finset.sum_eq_zero fun k' _ => ?_
    rw [expE_attentionBiased]
    simp [hm0]
  rw [h2, add_zero]
  refine Finset.sum_congr rfl fun k' _ => ?_
  rw [expE_attentionBiased, expE_attentionBiased, hm1,
    specAttentionScores_extend qsX ksX qs ks hq hk b hd q k']

theorem attentionWeights_extend_cast {B N m nh dh : ℕ}
    (qsX ksX : Fin B → Fin (nh * dh) → Fin (N + m) → ℝ)
    (qs ks : Fin B → Fin (nh * dh) → Fin N → ℝ)
    (maskX : Fin B → Fin (N + m) → Bool) (mask : Fin B → Fin N → Bool)
    (hq : ∀ b ch n, qsX b ch (Fin.castAdd m n) = qs b ch n)
    (hk : ∀ b ch n, ksX b ch (Fin.castAdd m n) = ks b ch n)
    (hm1 : ∀ b n, maskX b (Fin.castAdd m n) = mask b n)
    (hm0 : ∀ b k, maskX b (Fin.natAdd N k) = false)
    (b : Fin B) (k : Fin N) (hd : Fin nh) (q : Fin N) :
    attentionWeights qsX ksX maskX b (Fin.castAdd m k) hd (Fin.castAdd m q) =
      attentionWeights qs ks mask b k hd q := by
  simp only [attentionWeights]
  rw [attentionDenom_extend qsX ksX qs ks maskX mask hq hk hm1 hm0 b hd q,
    expE_attentionBiased, expE_attentionBiased, hm1,
    specAttentionScores_extend qsX ksX qs ks hq hk b hd q k]

theorem attentionWeights_extend_pad {B N m nh dh : ℕ}
    (qsX ksX : Fin B → Fin (nh * dh) → Fin (N + m) → ℝ)
    (maskX : Fin B → Fin (N + m) → Bool)
    (hm0 : ∀ b k, maskX b (Fin.natAdd N k) = false)
    (b : Fin B) (k : Fin m) (hd : Fin nh) (q : Fin (N + m)) :
    attentionWeights qsX ksX maskX b (Fin.natAdd N k) hd q = 0 := by
  simp only [attentionWeights]
  rw [expE_attentionBiased]
  simp [hm0]

theorem attentionHidden_extend {B N m nh dh : ℕ}
    (qsX ksX vsX : Fin B → Fin (nh * dh) → Fin (N + m) → ℝ)
    (qs ks vs : Fin B → Fin (nh * dh) → Fin N → ℝ)
    (maskX : Fin B → Fin (N + m) → Bool) (mask : Fin B → Fin N → Bool)
    (hq : ∀ b ch n, qsX b ch (Fin.castAdd m n) = qs b ch n)
    (hk : ∀ b ch n, ksX b ch (Fin.castAdd m n) = ks b ch n)
    (hv : ∀ b ch n, vsX b ch (Fin.castAdd m n) = vs b ch n)
    (hm1 : ∀ b n, maskX b (Fin.castAdd m n) = mask b n)
    (hm0 : ∀ b k, maskX b (Fin.natAdd N k) = false)
    (b : Fin B) (ch : Fin (nh * dh)) (q : Fin N) :
    attentionHidden qsX ksX vsX maskX b ch (Fin.castAdd m q) =
      attentionHidden qs ks vs mask b ch q := by
  simp only [attentionHidden]
  rw [Fin.sum_univ_add]
  have h2 : (∑ k : Fin m,
      attentionWeights qsX ksX maskX b (Fin.natAdd N k) (headIdx ch)
          (Fin.castAdd m q) * vsX b ch (Fin.natAdd N k)) = 0 := by
    refine Finset.sum_eq_zero fun k _ => ?_
    rw [attentionWeights_extend_pad qsX ksX maskX hm0 b k (headIdx ch)
      (Fin.castAdd m q), zero_mul]
  rw [h2, add_zero]
  refine Finset.sum_congr rfl fun k _ => ?_
  rw [attentionWeights_extend_cast qsX ksX qs ks maskX mask hq hk hm1 hm0
    b k (headIdx ch) q, hv]

theorem selfAttn_extend {B N m nh dh : ℕ} (A : AttentionTorch nh dh)
    (X : Fin B → Fin (N + m) → Fin (nh * dh) → ℝ)
    (x : Fin B → Fin N → Fin (nh * dh) → ℝ)
    (maskX : Fin B → Fin (N + m) → Bool) (mask : Fin B → Fin N → Bool)
    (hagree : ∀ b n, X b (Fin.castAdd m n) = x b n)
    (hm1 : ∀ b n, maskX b (Fin.castAdd m n) = mask b n)
    (hm0 : ∀ b k, maskX b (Fin.natAdd N k) = false)
    (b : Fin B) (ch : Fin (nh * dh)) (q : Fin N) :
    EncoderSelfAttentionTorch.forward A X maskX b ch (Fin.castAdd m q) =
      EncoderSelfAttentionTorch.forward A x mask b ch q := by
  have hproj : ∀ (W : Fin (nh * dh) → Fin (nh * dh) → ℝ) b ch n,
      conv1x1 W (fun b ch n => X b n ch) b ch (Fin.castAdd m n) =
        conv1x1 W (fun b ch n => x b n ch) b ch n := by
    intro W b ch n
    simp only [conv1x1]
    refine Finset.sum_congr rfl fun i _ => ?_
    rw [hagree]
  simp only [EncoderSelfAttentionTorch.forward, AttentionTorch.forward,
    linearNoBias]
  refine Finset.sum_congr rfl fun i _ => ?_
  congr 1
  exact attentionHidden_extend _ _ _ _ _ _ maskX mask (hproj A.q_proj)
    (hproj A.k_proj) (hproj A.v_proj) hm1 hm0 b i q

theorem encoderLayer_extend {B N m nh dh M : ℕ} (L : EncoderLayerTorch nh dh M)
    (X : Fin B → Fin (N + m) → Fin (nh * dh) → ℝ)
    (x : Fin B → Fin N → Fin (nh * dh) → ℝ)
    (maskX : Fin B → Fin (N + m) → Bool) (mask : Fin B → Fin N → Bool)
    (hagree : ∀ b n, X b (Fin.castAdd m n) = x b n)
    (hm1 : ∀ b n, maskX b (Fin.castAdd m n) = mask b n)
    (hm0 : ∀ b k, maskX b (Fin.natAdd N k) = false)
    (b : Fin B) (n : Fin N) :
    L.forward X maskX b (Fin.castAdd m n) = L.forward x mask b n := by
  have hn : ∀ b n, layerNormed L X b (Fin.castAdd m n) = layerNormed L x b n := by
    intro b n; simp only [layerNormed]; rw [hagree]
  have hr : layerResid1 L X maskX b (Fin.castAdd m n) = layerResid1 L x mask b n := by
    funext c
    simp only [layerResid1]
    rw [hagree b n]
    have hvec : (fun c' => EncoderSelfAttentionTorch.forward L.self_attn
        (layerNormed L X) maskX b c' (Fin.castAdd m n)) =
        fun c' => EncoderSelfAttentionTorch.forward L.self_attn
          (layerNormed L x) mask b c' n :=
      funext fun c' => selfAttn_extend L.self_attn (layerNormed L X)
        (layerNormed L x) maskX mask hn hm1 hm0 b c' n
    rw [hvec]
  funext ch
  simp only [EncoderLayerTorch.forward, hr]

theorem foldlLayers_extend {B N m nh dh M : ℕ}
    (ls : List (EncoderLayerTorch nh dh M))
    (maskX : Fin B → Fin (N + m) → Bool) (mask : Fin B → Fin N → Bool)
    (hm1 : ∀ b n, maskX b (Fin.castAdd m n) = mask b n)
    (hm0 : ∀ b k, maskX b (Fin.natAdd N k) = false) :
    ∀ (S : Fin B → Fin (N + m) → Fin (nh * dh) → ℝ)
      (s : Fin B → Fin N → Fin (nh * dh) → ℝ),
      (∀ b n, S b (Fin.castAdd m n) = s b n) →
      ∀ (b : Fin B) (n : Fin N),
        ls.foldl (fun st L => L.forward st maskX) S b (Fin.castAdd m n) =
          ls.foldl (fun st L => L.forward st mask) s b n := by
  induction ls with
  | nil => intro S s h b n; exact h b n
  | cons L ls ih =>
      intro S s h b n
      simp only [List.foldl_cons]
      exact ih _ _
        (fun b n => encoderLayer_extend L S s maskX mask h hm1 hm0 b n) b n

theorem encoderEmbed_extend {nh dh M P : ℕ}
    (enc : DalleBartEncoderTorch nh dh M P) {B N m : ℕ}
    (hNP : N + m ≤ P) (t : Fin B → Fin N → ℕ) (b : Fin B) (n : Fin N) :
    encoderEmbed enc hNP (extendTokens m t) b (Fin.castAdd m n) =
      encoderEmbed enc (le_trans (Nat.le_add_right N m) hNP) t b n := by
  simp only [encoderEmbed]
  have hpos : Fin.castLE hNP (Fin.castAdd m n) =
      Fin.castLE (le_trans (Nat.le_add_right N m) hNP) n := by
    apply Fin.ext; simp
  rw [extendTokens_cast, hpos]

/-- C10: appending pad tokens (id `1`) to every row of a token batch,
within the position table's capacity, leaves the encoder output at all
original positions exactly unchanged: appended positions are masked as
keys, get zero softmax weight and zero denominator contribution, and every
other operation acts per position. -/
theorem C10_pad_extension_invisible {nh dh M P : ℕ}
    (enc : DalleBartEncoderTorch nh dh M P) {B N m : ℕ}
    (t : Fin B → Fin N → ℕ) (hNP : N + m ≤ P)
    (_hrows : ∀ b, ∃ n, t b n ≠ 1) (b : Fin B) (n : Fin N) :
    enc.forward hNP (extendTokens m t) b (Fin.castAdd m n) =
      enc.forward (le_trans (Nat.le_add_right N m) hNP) t b n := by
  simp only [DalleBartEncoderTorch.forward]
  rw [foldlLayers_extend enc.layers (encoderMask (extendTokens m t))
    (encoderMask t) (fun b n => encoderMask_extend_cast m t b n)
    (fun b k => encoderMask_extend_pad m t b k)
    (encoderEmbed enc hNP (extendTokens m t))
    (encoderEmbed enc (le_trans (Nat.le_add_right N m) hNP) t)
    (fun b n => encoderEmbed_extend enc hNP t b n) b n]

/-- Witness for C10 on the concrete one-layer encoder, appending one pad
token to a single-token row. -/
theorem C10_pad_extension_invisible_witness :
    ((1 + 1 : ℕ) ≤ 2) ∧
    (∀ b : Fin 1, ∃ n : Fin 1,
      (fun (_ : Fin 1) (_ : Fin 1) => (0 : ℕ)) b n ≠ 1) ∧
    encZero.forward (by decide)
        (extendTokens 1 (fun (_ : Fin 1) (_ : Fin 1) => (0 : ℕ))) 0
        (Fin.castAdd 1 0) =
      encZero.forward (le_trans (Nat.le_add_right 1 1) (by decide))
        (fun (_ : Fin 1) (_ : Fin 1) => (0 : ℕ)) 0 0 :=
  ⟨by decide, fun _ => ⟨0, Nat.zero_ne_one⟩,
    C10_pad_extension_invisible encZero _ (by decide)
      (fun _ => ⟨0, Nat.zero_ne_one⟩) 0 0⟩

end MinDalle
